import Mathlib

/-!
Verification of the categorical string-interning cache of polars
(py-polars binding layer).  The cache core itself (Dictionary,
ScopeCounter, RevMap, Merger) lives in the Rust crate `polars-core`,
which is not part of the Python sources; following the spec
(spec.md §3, §4, §6) we model those components faithfully from the
spec's words and verify the claimed properties against the model and
against the behaviour pinned down by the unit tests in
`py-polars/tests/unit/datatypes/test_categorical.py`.
-/

namespace PolarsCat

/-- The error taxonomy of the categorical subsystem (spec §7):
`incompatibleSources` for comparing/joining categorical columns whose
RevMaps cannot be proven equivalent, `outOfRange` for decoding a code
with no corresponding dictionary entry. -/
inductive CatError where
  | incompatibleSources
  | outOfRange
deriving Repr, DecidableEq

/-- Modelled from the spec: the `Dictionary` component (§3, §4.1) of the
Rust categorical core, absent from the Python sources — "ordered list of
unique strings plus a lookup from string to its assigned code"; the code
of a string is its position in the first-seen order. -/
structure Dictionary where
  entries : List String
deriving Repr, DecidableEq

/-- The empty dictionary (a fresh/cleared cache table). -/
def Dictionary.empty : Dictionary := ⟨[]⟩

/-- The string-to-code lookup of a Dictionary: position of the first
occurrence of `s` in the entry list, if present. -/
def findCode (entries : List String) (s : String) : Option Nat :=
  match entries with
  | [] => none
  | e :: rest => if e = s then some 0 else (findCode rest s).map (· + 1)

/-- Modelled from the spec: `Dictionary.encode` (§4.1) — "returns
existing code if `s` present; otherwise appends `s`, assigns the next
code, and returns it. Never fails; never shrinks." -/
def Dictionary.encode (d : Dictionary) (s : String) : Nat × Dictionary :=
  match findCode d.entries s with
  | some c => (c, d)
  | none => (d.entries.length, ⟨d.entries ++ [s]⟩)

/-- Modelled from the spec: `Dictionary.decode` (§4.1) — "fails with
`OutOfRangeError` if `code` exceeds the highest assigned code". -/
def Dictionary.decode (d : Dictionary) (code : Nat) : Except CatError String :=
  match d.entries[code]? with
  | some s => Except.ok s
  | none => Except.error CatError.outOfRange

/-- Modelled from the spec: `Dictionary.merge` (§4.1) — "builds the
union of both dictionaries preserving `self`'s existing codes unchanged
and assigning new codes, in first-seen order of `other`, to strings not
already present; returns a table mapping `other`'s old codes to the
merged codes." -/
def Dictionary.merge (d other : Dictionary) : Dictionary × List Nat :=
  other.entries.foldl
    (fun acc s =>
      let r := acc.1.encode s
      (r.2, acc.2 ++ [r.1]))
    (d, [])

/-- `d.Ext d'`: `d'` extends `d` — every entry keeps its position and
every string already interned keeps its code.  This is the stability
relation that growth of a Dictionary must preserve (spec §3: "growing
the Dictionary … must not change the code of any previously interned
string"). -/
def Dictionary.Ext (d d' : Dictionary) : Prop :=
  (∀ (i : Nat) (t : String), d.entries[i]? = some t → d'.entries[i]? = some t) ∧
  (∀ s c, findCode d.entries s = some c → findCode d'.entries s = some c)

theorem Dictionary.Ext.refl (d : Dictionary) : d.Ext d :=
  ⟨fun _ _ h => h, fun _ _ h => h⟩

theorem Dictionary.Ext.trans {d₁ d₂ d₃ : Dictionary}
    (h₁ : d₁.Ext d₂) (h₂ : d₂.Ext d₃) : d₁.Ext d₃ :=
  ⟨fun i t h => h₂.1 i t (h₁.1 i t h), fun s c h => h₂.2 s c (h₁.2 s c h)⟩

/-- A found code points at the string it was looked up for. -/
theorem findCode_getElem? {entries : List String} {s : String} {c : Nat}
    (h : findCode entries s = some c) : entries[c]? = some s := by
  induction entries generalizing c with
  | nil => simp [findCode] at h
  | cons e rest ih =>
    by_cases he : e = s
    · simp [findCode, he] at h
      subst h
      simp [he]
    · simp [findCode, he] at h
      obtain ⟨c', hc', rfl⟩ := h
      simpa using ih hc'

/-- Appending entries on the right does not change the code a lookup
finds. -/
theorem findCode_append {entries : List String} {s : String} {c : Nat}
    (h : findCode entries s = some c) (extra : List String) :
    findCode (entries ++ extra) s = some c := by
  induction entries generalizing c with
  | nil => simp [findCode] at h
  | cons e rest ih =>
    by_cases he : e = s
    · simp [findCode, he] at h ⊢
      exact h
    · simp [findCode, he] at h ⊢
      obtain ⟨c', hc', rfl⟩ := h
      exact ⟨c', ih hc', rfl⟩

/-- When the string is already interned, `encode` returns its existing
code and leaves the dictionary unchanged. -/
theorem encode_eq_of_found {d : Dictionary} {s : String} {c : Nat}
    (hf : findCode d.entries s = some c) : d.encode s = (c, d) := by
  simp [Dictionary.encode, hf]

/-- When the string is new, `encode` appends it and assigns the next
code. -/
theorem encode_eq_of_not_found {d : Dictionary} {s : String}
    (hf : findCode d.entries s = none) :
    d.encode s = (d.entries.length, ⟨d.entries ++ [s]⟩) := by
  simp [Dictionary.encode, hf]

/-- A string absent from a list is found at the appended position. -/
theorem findCode_append_self {entries : List String} {s : String}
    (hf : findCode entries s = none) :
    findCode (entries ++ [s]) s = some entries.length := by
  induction entries with
  | nil => simp [findCode]
  | cons e rest ih =>
    by_cases he : e = s
    · simp [findCode, he] at hf
    · have hf' : findCode rest s = none := by
        simp [findCode, he] at hf
        simpa using hf
      simp [findCode, he, ih hf']

/-- `encode` only grows the dictionary: previously assigned codes and
entry positions are untouched. -/
theorem encode_ext (d : Dictionary) (s : String) : d.Ext (d.encode s).2 := by
  cases hf : findCode d.entries s with
  | some c =>
    rw [encode_eq_of_found hf]
    exact Dictionary.Ext.refl d
  | none =>
    rw [encode_eq_of_not_found hf]
    refine ⟨fun i t h => ?_, fun u c h => ?_⟩
    · have hi : i < d.entries.length := (List.getElem?_eq_some.mp h).choose
      simpa [List.getElem?_append_left hi] using h
    · exact findCode_append h [s]

/-- The code returned by `encode` decodes, in the updated dictionary, to
the string that was encoded. -/
theorem encode_decode (d : Dictionary) (s : String) :
    (d.encode s).2.decode (d.encode s).1 = Except.ok s := by
  cases hf : findCode d.entries s with
  | some c =>
    rw [encode_eq_of_found hf]
    simp [Dictionary.decode, findCode_getElem? hf]
  | none =>
    rw [encode_eq_of_not_found hf]
    simp [Dictionary.decode, List.getElem?_concat_length]

/-- After `encode`, the string is present with the returned code. -/
theorem encode_findCode (d : Dictionary) (s : String) :
    findCode (d.encode s).2.entries s = some (d.encode s).1 := by
  cases hf : findCode d.entries s with
  | some c =>
    rw [encode_eq_of_found hf]
    exact hf
  | none =>
    rw [encode_eq_of_not_found hf]
    exact findCode_append_self hf

/-- The code returned by `encode` is in range of the updated
dictionary. -/
theorem encode_code_lt (d : Dictionary) (s : String) :
    (d.encode s).1 < (d.encode s).2.entries.length := by
  have h := encode_findCode d s
  have := findCode_getElem? h
  exact (List.getElem?_eq_some.mp this).choose

/-- Modelled from the spec: `castToCategorical`'s per-value encoding
loop (§6, §8.1 `encode_all`) of the Rust core, absent from the Python
sources — encodes a nullable string sequence left to right into a
dictionary, preserving null positions. -/
def encodeAll (d : Dictionary) (vals : List (Option String)) :
    List (Option Nat) × Dictionary :=
  match vals with
  | [] => ([], d)
  | none :: rest =>
    let r := encodeAll d rest
    (none :: r.1, r.2)
  | some s :: rest =>
    let e := d.encode s
    let r := encodeAll e.2 rest
    (some e.1 :: r.1, r.2)

/-- Modelled from the spec: `decodeColumn` (§6) of the Rust core, absent
from the Python sources — "uses Dictionary.decode per code; fails with
`OutOfRangeError` if a code is unresolvable". -/
def decodeColumn (d : Dictionary) (codes : List (Option Nat)) :
    Except CatError (List (Option String)) :=
  match codes with
  | [] => Except.ok []
  | none :: rest =>
    match decodeColumn d rest with
    | Except.ok ss => Except.ok (none :: ss)
    | Except.error e => Except.error e
  | some c :: rest =>
    match d.decode c with
    | Except.ok s =>
      match decodeColumn d rest with
      | Except.ok ss => Except.ok (some s :: ss)
      | Except.error e => Except.error e
    | Except.error e => Except.error e

/-- `encodeAll` only grows the dictionary. -/
theorem encodeAll_ext (d : Dictionary) (vals : List (Option String)) :
    d.Ext (encodeAll d vals).2 := by
  induction vals generalizing d with
  | nil => exact Dictionary.Ext.refl d
  | cons v rest ih =>
    cases v with
    | none => exact ih d
    | some s => exact (encode_ext d s).trans (ih (d.encode s).2)

/-- Decoding is stable under dictionary growth. -/
theorem decode_ext {d d' : Dictionary} (h : d.Ext d') {c : Nat} {s : String}
    (hd : d.decode c = Except.ok s) : d'.decode c = Except.ok s := by
  unfold Dictionary.decode at hd ⊢
  cases hg : d.entries[c]? with
  | none => simp [hg] at hd
  | some t =>
    simp [hg] at hd
    subst hd
    simp [h.1 c t hg]

/-- Every code emitted by `encodeAll` decodes, in the final dictionary,
to the string it encoded (the heart of the round-trip property). -/
theorem encodeAll_decodeColumn (vals : List (Option String)) (d : Dictionary) :
    decodeColumn (encodeAll d vals).2 (encodeAll d vals).1 = Except.ok vals := by
  induction vals generalizing d with
  | nil => simp [encodeAll, decodeColumn]
  | cons v rest ih =>
    cases v with
    | none =>
      simp only [encodeAll, decodeColumn]
      rw [ih d]
    | some s =>
      simp only [encodeAll, decodeColumn]
      have hdec : (encodeAll (d.encode s).2 rest).2.decode (d.encode s).1 =
          Except.ok s :=
        decode_ext (encodeAll_ext (d.encode s).2 rest) (encode_decode d s)
      rw [hdec, ih (d.encode s).2]

/-- Every code emitted by `encodeAll` is in range of the final
dictionary (codes are contiguous integers starting at 0). -/
theorem encodeAll_codes_lt (vals : List (Option String)) (d : Dictionary) :
    ∀ c : Nat, some c ∈ (encodeAll d vals).1 →
      c < (encodeAll d vals).2.entries.length := by
  induction vals generalizing d with
  | nil => simp [encodeAll]
  | cons v rest ih =>
    cases v with
    | none =>
      intro c hc
      simp only [encodeAll, List.mem_cons] at hc
      rcases hc with hc | hc
      · exact absurd hc (by simp)
      · exact ih d c hc
    | some s =>
      intro c hc
      simp only [encodeAll, List.mem_cons] at hc
      rcases hc with hc | hc
      · have : c = (d.encode s).1 := by simpa using hc
        subst this
        have h1 := encode_code_lt d s
        have h2 := encodeAll_ext (d.encode s).2 rest
        have h3 := encode_findCode d s
        have h4 := h2.2 s (d.encode s).1 h3
        have := findCode_getElem? h4
        exact (List.getElem?_eq_some.mp this).choose
      · exact ih (d.encode s).2 c hc

/-- Modelled from the spec: the process-wide `GlobalCache` plus
`ScopeCounter` (§3, §4.2) of the Rust core, absent from the Python
sources — one Dictionary, a monotonically increasing generation id, and
a reentrant activation depth, guarded as a single unit. -/
structure CacheState where
  dict : Dictionary
  generation : Nat
  depth : Nat
deriving Repr, DecidableEq

/-- The process start state: inactive cache, empty Dictionary. -/
def initialCache : CacheState := ⟨Dictionary.empty, 0, 0⟩

/-- Modelled from the spec: `isCacheActive` / `is_active` (§4.2, §6) —
the cache is active exactly when some scope is open. -/
def isCacheActive (st : CacheState) : Bool := decide (0 < st.depth)

/-- Modelled from the spec: `ScopeCounter.enter` (§4.2) — "depth += 1;
if depth transitions 0→1 … `active` becomes true", Dictionary and
generation id left intact when an outer scope was already open. -/
def CacheState.enter (st : CacheState) : CacheState :=
  { st with depth := st.depth + 1 }

/-- Modelled from the spec: `ScopeCounter.exit` / `ScopeHandle.release`
(§4.2) — "depth -= 1; if depth transitions 1→0, GlobalCache's
Dictionary is cleared and generation id incremented; `active` becomes
false". -/
def CacheState.exit (st : CacheState) : CacheState :=
  if st.depth = 1 then ⟨Dictionary.empty, st.generation + 1, 0⟩
  else { st with depth := st.depth - 1 }

/-- Modelled from the spec: the `RevMap` tag (§3, §9) — "a tagged
variant `{Global{generation}, Local{dictionary}}`"; a `Local` tag
carries an owner identity so that two local RevMaps are "the same owning
Dictionary" exactly when their owners coincide. -/
inductive RevMapKind where
  | GlobalK (gen : Nat)
  | LocalK (owner : Nat)
deriving Repr, DecidableEq

/-- Modelled from the spec: `RevMap` (§3) — "`{ kind:
Global(generation_id) | Local, dictionary: Dictionary }`"; for `Global`
the dictionary is a view onto the GlobalCache's Dictionary as of last
use. -/
structure RevMap where
  kind : RevMapKind
  dictionary : Dictionary
deriving Repr, DecidableEq

/-- Modelled from the spec: `CategoricalColumn` (§3) — "a sequence of
codes (unsigned integers, nullable) plus exactly one owned RevMap". -/
structure CategoricalColumn where
  codes : List (Option Nat)
  revmap : RevMap
deriving Repr, DecidableEq

/-- Modelled from the spec: `encode_categorical_value` (§4.3) — when the
scope is active the string is interned into the global Dictionary and
the RevMap is `Global(generation_id)`; otherwise it is interned into the
column's private local Dictionary (created empty if absent), the RevMap
is `Local`, and the global cache is untouched. -/
def encode_categorical_value (st : CacheState) (ld : Option Dictionary)
    (owner : Nat) (s : String) : (Nat × RevMap) × CacheState :=
  if isCacheActive st then
    let e := st.dict.encode s
    ((e.1, ⟨RevMapKind.GlobalK st.generation, e.2⟩), { st with dict := e.2 })
  else
    let e := (ld.getD Dictionary.empty).encode s
    ((e.1, ⟨RevMapKind.LocalK owner, e.2⟩), st)

/-- Modelled from the spec: `castToCategorical` (§6) — encodes every
value of a string column through the §4.3 encode path; under an active
scope it interns into (and grows) the global Dictionary, otherwise into
a fresh private local Dictionary owned by this column alone. -/
def castToCategorical (st : CacheState) (owner : Nat)
    (vals : List (Option String)) : CategoricalColumn × CacheState :=
  if isCacheActive st then
    let r := encodeAll st.dict vals
    (⟨r.1, ⟨RevMapKind.GlobalK st.generation, r.2⟩⟩, { st with dict := r.2 })
  else
    let r := encodeAll Dictionary.empty vals
    (⟨r.1, ⟨RevMapKind.LocalK owner, r.2⟩⟩, st)

/-- Modelled from the spec: the Merger's source-compatibility decision
table (§4.4) — two global RevMaps are compatible iff their generation
ids agree, two local RevMaps iff they share the owning Dictionary, and a
global/local mix never is. -/
def sourcesCompatible : RevMapKind → RevMapKind → Bool
  | RevMapKind.GlobalK g1, RevMapKind.GlobalK g2 => g1 == g2
  | RevMapKind.LocalK o1, RevMapKind.LocalK o2 => o1 == o2
  | _, _ => false

/-- Modelled from the spec: the eager compatibility check run by every
comparison/join entry point (§4.4, §7) before any row-level work. -/
def checkCompat (l r : RevMap) : Except CatError Unit :=
  if sourcesCompatible l.kind r.kind then Except.ok ()
  else Except.error CatError.incompatibleSources

/-- Modelled from the spec: direct equality comparison of two
categorical columns (§4.4) — checks source compatibility eagerly, then
compares codes row by row (null-propagating). -/
def compareEq (a b : CategoricalColumn) :
    Except CatError (List (Option Bool)) :=
  match checkCompat a.revmap b.revmap with
  | Except.error e => Except.error e
  | Except.ok _ =>
    Except.ok (List.zipWith
      (fun x y =>
        match x, y with
        | some cx, some cy => some (cx == cy)
        | _, _ => none)
      a.codes b.codes)

/-- Equality comparison with the cache state threaded through: scalar
comparison never touches the global cache. -/
def compareEqSt (st : CacheState) (a b : CategoricalColumn) :
    Except CatError (List (Option Bool)) × CacheState :=
  (compareEq a b, st)

/-- Modelled from the spec: `joinOn` (§4.4, §6) — the outer-join entry
point on a categorical key.  It checks source compatibility eagerly;
on success the output RevMap is the union Dictionary from
`Dictionary.merge` (left/dominant codes preserved, right-only strings
appended in the right side's first-seen order), every right-side code is
rewritten through the translation table, and — following the row order
observed in the reference test `test_categorical_outer_join` — the
output key column lists the right side's rows first, then the left rows
whose key has no right match. -/
def joinOn (l r : CategoricalColumn) :
    Except CatError (CategoricalColumn × List Nat) :=
  match checkCompat l.revmap r.revmap with
  | Except.error e => Except.error e
  | Except.ok _ =>
    let m := l.revmap.dictionary.merge r.revmap.dictionary
    let rcodes := r.codes.map (fun oc => oc.bind (fun c => m.2[c]?))
    let keyCodes := rcodes ++ l.codes.filter (fun c => !(rcodes.contains c))
    Except.ok (⟨keyCodes, ⟨l.revmap.kind, m.1⟩⟩, m.2)

/-- `joinOn` with the cache state threaded through: the merger consults
only the two RevMaps, never the global cache. -/
def joinOnSt (st : CacheState) (l r : CategoricalColumn) :
    Except CatError (CategoricalColumn × List Nat) × CacheState :=
  (joinOn l r, st)

/-- Modelled from the spec: the literal exception of §4.4 — a
freshly-constructed string literal used against a categorical column is
"encoded against the *already-established* RevMap of the column", so
the resulting one-row operand carries the very same source tag as the
column itself. -/
def encodeLitAgainst (col : CategoricalColumn) (lit : String) :
    CategoricalColumn :=
  let e := col.revmap.dictionary.encode lit
  ⟨[some e.1], ⟨col.revmap.kind, e.2⟩⟩

/-- Modelled from the spec: `is_in` with a short literal list (§4.4) —
each literal is looked up in the column's own RevMap (absent literals
simply match nothing) and rows are selected by code membership. -/
def isInLit (col : CategoricalColumn) (lits : List String) :
    List (Option Bool) :=
  let probeCodes := lits.filterMap (fun s => findCode col.revmap.dictionary.entries s)
  col.codes.map (fun oc => oc.map (fun c => probeCodes.contains c))

/-- `Dictionary.merge` preserves the dominant side's entries in place:
merging is a fold of `encode` over the other side, and `encode` only
extends. -/
theorem mergeFold_ext (strs : List String) :
    ∀ (d : Dictionary) (acc : List Nat),
      d.Ext (strs.foldl
        (fun p s =>
          let r := p.1.encode s
          (r.2, p.2 ++ [r.1])) (d, acc)).1 := by
  induction strs with
  | nil => exact fun d _ => Dictionary.Ext.refl d
  | cons s rest ih =>
    intro d acc
    simp only [List.foldl_cons]
    exact (encode_ext d s).trans (ih (d.encode s).2 _)

theorem merge_ext (d other : Dictionary) : d.Ext (d.merge other).1 :=
  mergeFold_ext other.entries d []

/-- `decode` fails exactly on codes beyond the assigned range. -/
theorem decode_err_iff (d : Dictionary) (c : Nat) :
    d.decode c = Except.error CatError.outOfRange ↔ d.entries.length ≤ c := by
  cases hg : d.entries[c]? with
  | some s =>
    have hc : c < d.entries.length := (List.getElem?_eq_some.mp hg).choose
    exact iff_of_false (by simp [Dictionary.decode, hg]) (Nat.not_le.mpr hc)
  | none =>
    exact iff_of_true (by simp [Dictionary.decode, hg])
      (List.getElem?_eq_none_iff.mp hg)

/-- The only error `decode` produces is `outOfRange`. -/
theorem decode_error_eq {d : Dictionary} {c : Nat} {e : CatError}
    (h : d.decode c = Except.error e) : e = CatError.outOfRange := by
  unfold Dictionary.decode at h
  cases hg : d.entries[c]? with
  | some s => simp [hg] at h
  | none =>
    simp [hg] at h
    exact h.symm

/-- A column whose codes are all in range decodes successfully. -/
theorem decodeColumn_ok_of_lt (d : Dictionary) (codes : List (Option Nat))
    (h : ∀ cc : Nat, some cc ∈ codes → cc < d.entries.length) :
    ∃ ss, decodeColumn d codes = Except.ok ss := by
  induction codes with
  | nil => exact ⟨[], rfl⟩
  | cons oc rest ih =>
    obtain ⟨ss, hss⟩ := ih (fun cc hm => h cc (List.mem_cons_of_mem _ hm))
    cases oc with
    | none => exact ⟨none :: ss, by simp [decodeColumn, hss]⟩
    | some c =>
      have hc : c < d.entries.length := h c (List.mem_cons_self _ _)
      cases hg : d.entries[c]? with
      | none => exact absurd (List.getElem?_eq_none_iff.mp hg) (Nat.not_le.mpr hc)
      | some s =>
        exact ⟨some s :: ss, by simp [decodeColumn, Dictionary.decode, hg, hss]⟩

/-- A column containing an out-of-range code fails to decode with
`outOfRange`. -/
theorem decodeColumn_err_of_oob (d : Dictionary) (codes : List (Option Nat))
    (h : ∃ cc : Nat, some cc ∈ codes ∧ d.entries.length ≤ cc) :
    decodeColumn d codes = Except.error CatError.outOfRange := by
  induction codes with
  | nil =>
    obtain ⟨cc, hm, _⟩ := h
    simp at hm
  | cons oc rest ih =>
    obtain ⟨cc, hm, hle⟩ := h
    rcases List.mem_cons.mp hm with heq | hm'
    · have hdec : d.decode cc = Except.error CatError.outOfRange :=
        (decode_err_iff d cc).mpr hle
      simp [decodeColumn, ← heq, hdec]
    · have hrest := ih ⟨cc, hm', hle⟩
      cases oc with
      | none => simp [decodeColumn, hrest]
      | some c =>
        cases hdc : d.decode c with
        | error e => simp [decodeColumn, hdc, decode_error_eq hdc]
        | ok s => simp [decodeColumn, hdc, hrest]

/-- `decodeColumn` fails (with `outOfRange`) exactly when some code of
the column is unresolvable in the dictionary. -/
theorem decodeColumn_err_iff (d : Dictionary) (codes : List (Option Nat)) :
    decodeColumn d codes = Except.error CatError.outOfRange ↔
      ∃ cc : Nat, some cc ∈ codes ∧ d.entries.length ≤ cc := by
  constructor
  · intro h
    by_contra hn
    push_neg at hn
    obtain ⟨ss, hss⟩ := decodeColumn_ok_of_lt d codes
      (fun cc hm => hn cc hm)
    rw [hss] at h
    simp at h
  · exact decodeColumn_err_of_oob d codes

/-- Source compatibility is reflexive: a RevMap is always compatible
with one carrying the same tag. -/
theorem sourcesCompatible_refl (k : RevMapKind) :
    sourcesCompatible k k = true := by
  cases k <;> simp [sourcesCompatible]

/-- C3: for every finite sequence of strings possibly containing nulls,
encoding into a categorical column and decoding back yields exactly the
original sequence with nulls preserved in place; `decode (encode s) = s`
for every interned string, and all emitted codes are in the contiguous
range `0 .. |dictionary| - 1` (every index below the dictionary length
decodes successfully). -/
theorem claim_C3_roundtrip :
    ∀ (vals : List (Option String)) (d : Dictionary),
      decodeColumn (encodeAll d vals).2 (encodeAll d vals).1 = Except.ok vals ∧
      (∀ s : String, (d.encode s).2.decode (d.encode s).1 = Except.ok s) ∧
      (∀ c : Nat, some c ∈ (encodeAll d vals).1 →
        c < (encodeAll d vals).2.entries.length) ∧
      (∀ c : Nat, c < (encodeAll d vals).2.entries.length →
        ((encodeAll d vals).2.decode c).isOk = true) := by
  intro vals d
  refine ⟨encodeAll_decodeColumn vals d, fun s => encode_decode d s,
    encodeAll_codes_lt vals d, fun c hc => ?_⟩
  cases hg : (encodeAll d vals).2.entries[c]? with
  | none => exact absurd (List.getElem?_eq_none_iff.mp hg) (Nat.not_le.mpr hc)
  | some s => simp [Dictionary.decode, hg, Except.isOk, Except.toBool]

/-- Witness for C3 at a concrete input with a null. -/
theorem claim_C3_roundtrip_witness :
    decodeColumn (encodeAll Dictionary.empty [some "a", none, some "b", some "a"]).2
        (encodeAll Dictionary.empty [some "a", none, some "b", some "a"]).1 =
      Except.ok [some "a", none, some "b", some "a"] ∧
    1 < (encodeAll Dictionary.empty [some "a", none, some "b", some "a"]).2.entries.length :=
  ⟨(claim_C3_roundtrip [some "a", none, some "b", some "a"] Dictionary.empty).1,
   (claim_C3_roundtrip [some "a", none, some "b", some "a"] Dictionary.empty).2.2.1
     1 (by decide)⟩

/-- C9: `decode` fails with `OutOfRangeError` iff the code exceeds the
highest assigned code; every code returned by `encode` against the same
live dictionary decodes successfully (so the error branch is unreachable
for correctly scoped usage); and `decodeColumn` fails with
`OutOfRangeError` exactly when some code in the column is
unresolvable. -/
theorem claim_C9_decode_range :
    ∀ (d : Dictionary) (c : Nat) (codes : List (Option Nat)),
      (d.decode c = Except.error CatError.outOfRange ↔ d.entries.length ≤ c) ∧
      (∀ s : String, (d.encode s).2.decode (d.encode s).1 = Except.ok s) ∧
      (decodeColumn d codes = Except.error CatError.outOfRange ↔
        ∃ cc : Nat, some cc ∈ codes ∧ d.entries.length ≤ cc) :=
  fun d c codes =>
    ⟨decode_err_iff d c, fun s => encode_decode d s, decodeColumn_err_iff d codes⟩

/-- Witness for C9 at a concrete dictionary and column. -/
theorem claim_C9_decode_range_witness :
    Dictionary.decode ⟨["a"]⟩ 5 = Except.error CatError.outOfRange ∧
    decodeColumn ⟨["a"]⟩ [some 0, some 3] = Except.error CatError.outOfRange :=
  ⟨(claim_C9_decode_range ⟨["a"]⟩ 5 [some 0, some 3]).1.mpr (by decide),
   (claim_C9_decode_range ⟨["a"]⟩ 5 [some 0, some 3]).2.2.mpr
     ⟨3, by decide, by decide⟩⟩

/-- C4: within one scope, interning any further values (however many —
in particular enough to force backing-storage growth) never changes the
code of an earlier-interned string: its lookup still returns the
original code, that code still decodes to the string, and `is_in`
membership masks over the early strings are unchanged. -/
theorem claim_C4_growth_stability :
    ∀ (d : Dictionary) (vals : List (Option String)) (s : String) (c : Nat),
      findCode d.entries s = some c →
      findCode (encodeAll d vals).2.entries s = some c ∧
      (encodeAll d vals).2.decode c = Except.ok s ∧
      ∀ (codes : List (Option Nat)) (k : RevMapKind) (lits : List String),
        (∀ l ∈ lits, (findCode d.entries l).isSome = true) →
        isInLit ⟨codes, ⟨k, (encodeAll d vals).2⟩⟩ lits =
          isInLit ⟨codes, ⟨k, d⟩⟩ lits := by
  intro d vals s c h
  have hext := encodeAll_ext d vals
  refine ⟨hext.2 s c h, ?_, ?_⟩
  · have hd : d.decode c = Except.ok s := by
      simp [Dictionary.decode, findCode_getElem? h]
    exact decode_ext hext hd
  · intro codes k lits hl
    have hpc : lits.filterMap (fun l => findCode (encodeAll d vals).2.entries l) =
        lits.filterMap (fun l => findCode d.entries l) := by
      apply List.filterMap_congr
      intro l hm
      have hs := hl l hm
      cases hf : findCode d.entries l with
      | none => simp [hf] at hs
      | some cl => exact hext.2 l cl hf
    simp [isInLit, hpc]

/-- Witness for C4 at a concrete growing dictionary. -/
theorem claim_C4_growth_stability_witness :
    findCode (encodeAll ⟨["a", "b"]⟩ [some "c", some "d"]).2.entries "a" = some 0 ∧
    isInLit ⟨[some 0, some 2], ⟨RevMapKind.LocalK 0,
        (encodeAll ⟨["a", "b"]⟩ [some "c", some "d"]).2⟩⟩ ["a"] =
      isInLit ⟨[some 0, some 2], ⟨RevMapKind.LocalK 0, ⟨["a", "b"]⟩⟩⟩ ["a"] :=
  ⟨(claim_C4_growth_stability ⟨["a", "b"]⟩ [some "c", some "d"] "a" 0 (by decide)).1,
   (claim_C4_growth_stability ⟨["a", "b"]⟩ [some "c", some "d"] "a" 0
       (by decide)).2.2 [some 0, some 2] (RevMapKind.LocalK 0) ["a"] (by decide)⟩

/-- C2: starting inactive, entering scope A then nested scope B and
releasing B leaves the cache active with Dictionary and generation id
unchanged; only the final release of A deactivates and clears.  In
general `exit` deactivates and clears only on the depth 1→0 transition,
never while an outer scope is still open. -/
theorem claim_C2_nested_scopes :
    ∀ st : CacheState,
      (st.depth = 0 →
        isCacheActive st.enter.enter.exit = true ∧
        st.enter.enter.exit.dict = st.enter.enter.dict ∧
        st.enter.enter.exit.generation = st.enter.enter.generation ∧
        isCacheActive st.enter.enter.exit.exit = false ∧
        st.enter.enter.exit.exit.dict = Dictionary.empty) ∧
      (2 ≤ st.depth →
        isCacheActive st.exit = true ∧ st.exit.dict = st.dict ∧
        st.exit.generation = st.generation) ∧
      (st.depth = 1 →
        isCacheActive st.exit = false ∧ st.exit.dict = Dictionary.empty ∧
        st.exit.generation = st.generation + 1) := by
  intro st
  refine ⟨fun h0 => ?_, fun h2 => ?_, fun h1 => ?_⟩
  · simp only [CacheState.enter, CacheState.exit, isCacheActive, h0]
    norm_num
  · have hne : st.depth ≠ 1 := by omega
    refine ⟨?_, ?_, ?_⟩
    · simp only [CacheState.exit, if_neg hne, isCacheActive, decide_eq_true_eq]
      omega
    · simp [CacheState.exit, hne]
    · simp [CacheState.exit, hne]
  · simp [CacheState.exit, isCacheActive, h1]

/-- Witness for C2 from the initial process state. -/
theorem claim_C2_nested_scopes_witness :
    isCacheActive initialCache.enter.enter.exit = true ∧
    isCacheActive initialCache.enter.enter.exit.exit = false ∧
    isCacheActive initialCache.exit = false :=
  ⟨(claim_C2_nested_scopes initialCache).1 (by decide) |>.1,
   (claim_C2_nested_scopes initialCache).1 (by decide) |>.2.2.2.1,
   by decide⟩

/-- C7: `encode_categorical_value` dispatches on scope activation — when
the scope is active the string is interned into the global Dictionary
and the RevMap is `Global` tagged with the current generation id (depth
and generation untouched); when inactive the string goes into the
column's private local Dictionary (created empty if absent), the RevMap
is `Local`, and the global cache state is completely unchanged.  In both
cases the returned code decodes to the encoded string. -/
theorem claim_C7_encode_dispatch :
    ∀ (st : CacheState) (ld : Option Dictionary) (owner : Nat) (s : String),
      (isCacheActive st = true →
        (encode_categorical_value st ld owner s).1.2.kind =
          RevMapKind.GlobalK st.generation ∧
        (encode_categorical_value st ld owner s).2.dict = (st.dict.encode s).2 ∧
        (encode_categorical_value st ld owner s).2.generation = st.generation ∧
        (encode_categorical_value st ld owner s).2.depth = st.depth ∧
        (encode_categorical_value st ld owner s).1.2.dictionary.decode
          (encode_categorical_value st ld owner s).1.1 = Except.ok s) ∧
      (isCacheActive st = false →
        (encode_categorical_value st ld owner s).1.2.kind =
          RevMapKind.LocalK owner ∧
        (encode_categorical_value st ld owner s).2 = st ∧
        (encode_categorical_value st ld owner s).1.2.dictionary =
          ((ld.getD Dictionary.empty).encode s).2 ∧
        (encode_categorical_value st ld owner s).1.2.dictionary.decode
          (encode_categorical_value st ld owner s).1.1 = Except.ok s) := by
  intro st ld owner s
  constructor
  · intro h
    simp [encode_categorical_value, h, encode_decode]
  · intro h
    simp [encode_categorical_value, h, encode_decode]

/-- Witness for C7 on an active and an inactive state. -/
theorem claim_C7_encode_dispatch_witness :
    (encode_categorical_value initialCache.enter none 7 "x").1.2.kind =
      RevMapKind.GlobalK 0 ∧
    (encode_categorical_value initialCache none 7 "x").1.2.kind =
      RevMapKind.LocalK 7 ∧
    (encode_categorical_value initialCache none 7 "x").2 = initialCache :=
  ⟨(claim_C7_encode_dispatch initialCache.enter none 7 "x").1 (by decide) |>.1,
   (claim_C7_encode_dispatch initialCache none 7 "x").2 (by decide) |>.1,
   (claim_C7_encode_dispatch initialCache none 7 "x").2 (by decide) |>.2.1⟩

/-- C1: equality comparison of two categorical columns with independent
local dictionaries fails with `IncompatibleCategoricalSources` (never
returning a comparison result), and likewise for two global RevMaps
carrying different generation ids; in particular two columns cast to
categorical outside any active scope (hence privately owned local
dictionaries) cannot be compared. -/
theorem claim_C1_incompatible_cmp :
    ∀ (o1 o2 : Nat) (d1 d2 : Dictionary) (cs1 cs2 : List (Option Nat)),
      (o1 ≠ o2 →
        compareEq ⟨cs1, ⟨RevMapKind.LocalK o1, d1⟩⟩
            ⟨cs2, ⟨RevMapKind.LocalK o2, d2⟩⟩ =
          Except.error CatError.incompatibleSources) ∧
      (∀ g1 g2 : Nat, g1 ≠ g2 →
        compareEq ⟨cs1, ⟨RevMapKind.GlobalK g1, d1⟩⟩
            ⟨cs2, ⟨RevMapKind.GlobalK g2, d2⟩⟩ =
          Except.error CatError.incompatibleSources) ∧
      (∀ (st : CacheState) (v1 v2 : List (Option String)),
        isCacheActive st = false → o1 ≠ o2 →
        compareEq (castToCategorical st o1 v1).1 (castToCategorical st o2 v2).1 =
          Except.error CatError.incompatibleSources) := by
  intro o1 o2 d1 d2 cs1 cs2
  refine ⟨fun h => ?_, fun g1 g2 h => ?_, fun st v1 v2 hst h => ?_⟩
  · simp [compareEq, checkCompat, sourcesCompatible, h]
  · simp [compareEq, checkCompat, sourcesCompatible, h]
  · simp [castToCategorical, hst, compareEq, checkCompat, sourcesCompatible, h]

/-- Witness for C1 on concrete incompatible columns. -/
theorem claim_C1_incompatible_cmp_witness :
    compareEq ⟨[some 0], ⟨RevMapKind.LocalK 0, ⟨["a"]⟩⟩⟩
        ⟨[some 0], ⟨RevMapKind.LocalK 1, ⟨["b"]⟩⟩⟩ =
      Except.error CatError.incompatibleSources ∧
    compareEq ⟨[some 0], ⟨RevMapKind.GlobalK 0, ⟨["a"]⟩⟩⟩
        ⟨[some 0], ⟨RevMapKind.GlobalK 1, ⟨["b"]⟩⟩⟩ =
      Except.error CatError.incompatibleSources :=
  ⟨(claim_C1_incompatible_cmp 0 1 ⟨["a"]⟩ ⟨["b"]⟩ [some 0] [some 0]).1
     (by decide),
   (claim_C1_incompatible_cmp 0 1 ⟨["a"]⟩ ⟨["b"]⟩ [some 0] [some 0]).2.1
     0 1 (by decide)⟩

/-- C8: when the two sides are source-incompatible, comparison and join
fail eagerly and atomically — the error is produced whatever the row
contents are (no partial output exists) and the threaded cache state is
returned unchanged. -/
theorem claim_C8_eager_atomic_failure :
    ∀ (st : CacheState) (a b : CategoricalColumn),
      sourcesCompatible a.revmap.kind b.revmap.kind = false →
      compareEqSt st a b = (Except.error CatError.incompatibleSources, st) ∧
      joinOnSt st a b = (Except.error CatError.incompatibleSources, st) := by
  intro st a b h
  constructor
  · simp [compareEqSt, compareEq, checkCompat, h]
  · simp [joinOnSt, joinOn, checkCompat, h]

/-- Witness for C8 on a concrete incompatible pair. -/
theorem claim_C8_eager_atomic_failure_witness :
    compareEqSt initialCache ⟨[some 0], ⟨RevMapKind.LocalK 0, ⟨["a"]⟩⟩⟩
        ⟨[some 1], ⟨RevMapKind.GlobalK 0, ⟨["a", "b"]⟩⟩⟩ =
      (Except.error CatError.incompatibleSources, initialCache) ∧
    joinOnSt initialCache ⟨[some 0], ⟨RevMapKind.LocalK 0, ⟨["a"]⟩⟩⟩
        ⟨[some 1], ⟨RevMapKind.GlobalK 0, ⟨["a", "b"]⟩⟩⟩ =
      (Except.error CatError.incompatibleSources, initialCache) :=
  claim_C8_eager_atomic_failure initialCache
    ⟨[some 0], ⟨RevMapKind.LocalK 0, ⟨["a"]⟩⟩⟩
    ⟨[some 1], ⟨RevMapKind.GlobalK 0, ⟨["a", "b"]⟩⟩⟩ (by decide)

/-- C6: an operand built from a freshly-constructed string literal is
encoded against the compared column's own RevMap, so equality
comparison against it passes the compatibility check and succeeds
(never `IncompatibleCategoricalSources`), whatever the cache state; and
`is_in` with a literal list always produces a full mask. -/
theorem claim_C6_literal_never_fails :
    ∀ (st : CacheState) (col : CategoricalColumn) (lit : String)
      (lits : List String),
      checkCompat col.revmap (encodeLitAgainst col lit).revmap = Except.ok () ∧
      ((compareEqSt st col (encodeLitAgainst col lit)).1).isOk = true ∧
      (compareEqSt st col (encodeLitAgainst col lit)).1 ≠
        Except.error CatError.incompatibleSources ∧
      (compareEqSt st col (encodeLitAgainst col lit)).2 = st ∧
      (isInLit col lits).length = col.codes.length := by
  intro st col lit lits
  have hc : checkCompat col.revmap (encodeLitAgainst col lit).revmap =
      Except.ok () := by
    simp [checkCompat, encodeLitAgainst, sourcesCompatible_refl]
  refine ⟨hc, ?_, ?_, rfl, by simp [isInLit]⟩
  · simp [compareEqSt, compareEq, hc, Except.isOk, Except.toBool]
  · simp [compareEqSt, compareEq, hc]

/-- Witness for C6 on a concrete column and literal. -/
theorem claim_C6_literal_never_fails_witness :
    checkCompat (RevMap.mk (RevMapKind.LocalK 3) ⟨["a", "b"]⟩)
        (encodeLitAgainst ⟨[some 0, some 1], ⟨RevMapKind.LocalK 3, ⟨["a", "b"]⟩⟩⟩
          "e").revmap = Except.ok () ∧
    (isInLit ⟨[some 0, some 1], ⟨RevMapKind.LocalK 3, ⟨["a", "b"]⟩⟩⟩
        ["a", "z"]).length = 2 :=
  ⟨(claim_C6_literal_never_fails initialCache
      ⟨[some 0, some 1], ⟨RevMapKind.LocalK 3, ⟨["a", "b"]⟩⟩⟩ "e" ["a", "z"]).1,
   (claim_C6_literal_never_fails initialCache
      ⟨[some 0, some 1], ⟨RevMapKind.LocalK 3, ⟨["a", "b"]⟩⟩⟩ "e"
      ["a", "z"]).2.2.2.2⟩

/-- The left column of the reference scenario in
`test_categorical_outer_join`: keys `["foo", "bar"]` cast to categorical
inside a freshly entered string cache scope. -/
def scenarioLeft : CategoricalColumn × CacheState :=
  castToCategorical initialCache.enter 0 [some "foo", some "bar"]

/-- The right column of the same scenario: keys `["bar", "baz"]` cast to
categorical in the same still-open scope. -/
def scenarioRight : CategoricalColumn × CacheState :=
  castToCategorical scenarioLeft.2 1 [some "bar", some "baz"]

/-- C5: outer-joining the `["foo","bar"]` column against the
`["bar","baz"]` column (both encoded under one shared cache scope) and
casting the key back to strings yields exactly `["bar","baz","foo"]`;
the join's merged dictionary keeps the left (dominant) side's codes
unchanged (`["foo","bar"]` stay at codes 0 and 1) and appends the
right-only string `"baz"` in the right side's first-seen order, and in
general `Dictionary.merge` preserves every entry of the dominant side in
place. -/
theorem claim_C5_outer_join_merge_order :
    (∃ merged trans,
      joinOn scenarioLeft.1 scenarioRight.1 = Except.ok (merged, trans) ∧
      decodeColumn merged.revmap.dictionary merged.codes =
        Except.ok [some "bar", some "baz", some "foo"] ∧
      merged.revmap.dictionary.entries = ["foo", "bar", "baz"] ∧
      trans = [0, 1, 2]) ∧
    ∀ (d other : Dictionary) (i : Nat) (t : String),
      d.entries[i]? = some t → (d.merge other).1.entries[i]? = some t := by
  refine ⟨⟨⟨[some 1, some 2, some 0],
      ⟨RevMapKind.GlobalK 0, ⟨["foo", "bar", "baz"]⟩⟩⟩, [0, 1, 2],
      ?_, ?_, rfl, rfl⟩,
    fun d other i t h => (merge_ext d other).1 i t h⟩
  · rfl
  · rfl

/-- Witness for C5's general merge-preservation part at a concrete
pair of dictionaries. -/
theorem claim_C5_outer_join_merge_order_witness :
    ((Dictionary.mk ["x", "y"]).merge ⟨["y", "z"]⟩).1.entries[0]? = some "x" :=
  claim_C5_outer_join_merge_order.2 ⟨["x", "y"]⟩ ⟨["y", "z"]⟩ 0 "x" (by decide)

/-- C10: after every cache scope has exited (cache inactive, global
Dictionary cleared), the two columns encoded under the shared scope —
both carrying `Global` RevMaps with the same generation id — can still
be joined on, and the merged key column still decodes back to strings:
compatibility checking and decoding read only the columns' own RevMaps,
never the live cache, as witnessed by join results being identical under
every cache state. -/
theorem claim_C10_post_scope_join_decode :
    (isCacheActive scenarioRight.2.exit = false ∧
     scenarioRight.2.exit.dict = Dictionary.empty ∧
     scenarioLeft.1.revmap.kind = RevMapKind.GlobalK 0 ∧
     scenarioRight.1.revmap.kind = RevMapKind.GlobalK 0 ∧
     ∃ merged trans,
       joinOnSt scenarioRight.2.exit scenarioLeft.1 scenarioRight.1 =
         (Except.ok (merged, trans), scenarioRight.2.exit) ∧
       decodeColumn merged.revmap.dictionary merged.codes =
         Except.ok [some "bar", some "baz", some "foo"]) ∧
    ∀ (st st' : CacheState) (l r : CategoricalColumn),
      (joinOnSt st l r).1 = (joinOnSt st' l r).1 := by
  refine ⟨⟨?_, ?_, ?_, ?_, ⟨[some 1, some 2, some 0],
      ⟨RevMapKind.GlobalK 0, ⟨["foo", "bar", "baz"]⟩⟩⟩, [0, 1, 2], ?_, ?_⟩,
    fun st st' l r => rfl⟩
  · decide
  · decide
  · decide
  · decide
  · rfl
  · rfl

end PolarsCat
